import Mathlib

/-!
Verification of the `ComponentHost` registry from `src/lib/index.tsx`
(redux-component-host).  The host keeps ordered lists of reducers,
effectors, enhancers, middleware and page parts; `addPart` appends a
part registration and `getSection` resolves a named section into a
renderable container of route-guarded children.  Opaque references
(React components, reducers, effectors, enhancers, middleware) are
modelled as `Nat` identifiers since the registry never inspects them.
-/

namespace ReduxComponentHost

/-- The source's `Part` interface: one registration binding a route path to a
component within a section.  The source field `section` is called
`sectionName` here because `section` is a Lean keyword. -/
structure Part where
  sectionName : String
  path : String
  Component : Nat
  exact : Bool
deriving Repr, DecidableEq

/-- The store produced by `createStore`: it records the reducer list passed to
`combineReducers`, the effectors passed to `installSideEffects`, the extra
enhancers, the middleware (wrapped by `applyMiddleware` only when the
middleware list is nonempty, per the `if (this.middleware.length)` guard in
the source) and the initial state.  The devtools-extension enhancer depends
on the browser environment `window`, not on the host, and is omitted. -/
structure Store where
  reducers : List Nat
  effectors : List Nat
  enhancers : List Nat
  middlewareApplied : Option (List Nat)
  initialState : List (String × Nat)
deriving Repr, DecidableEq

/-- The state of a `ComponentHost` instance: the fields initialised by the
constructor plus the private `_store` cache (`none` models the field being
`undefined`/`null` before first access).  `initialState` is a JS object,
modelled as an ordered association list over its keys. -/
structure ComponentHost where
  initialState : List (String × Nat)
  reducers : List Nat
  effectors : List Nat
  enhancers : List Nat
  middleware : List Nat
  parts : List Part
  _store : Option Store
deriving Repr, DecidableEq

/-- `new ComponentHost()`: every list starts empty, `_store` unset. -/
def newHost : ComponentHost :=
  { initialState := []
    reducers := []
    effectors := []
    enhancers := []
    middleware := []
    parts := []
    _store := none }

/-- JS object key assignment `o[key] = value` on an association list:
replace the value in place if the key exists, otherwise append the new
key at the end (JS insertion-order semantics). -/
def setKey : List (String × Nat) → String → Nat → List (String × Nat)
  | [], k, v => [(k, v)]
  | (k', v') :: rest, k, v =>
    if k' == k then (k, v) :: rest else (k', v') :: setKey rest k v

/-- `setInitialState(key, value)`: sets one key of the initial state and
returns `this`. -/
def ComponentHost.setInitialState (h : ComponentHost) (key : String) (value : Nat) :
    ComponentHost :=
  { h with initialState := setKey h.initialState key value }

/-- `addReducer(reducer)`: pushes onto `this.reducers`, returns `this`. -/
def ComponentHost.addReducer (h : ComponentHost) (reducer : Nat) : ComponentHost :=
  { h with reducers := h.reducers ++ [reducer] }

/-- `addEffector(effector)`: pushes onto `this.effectors`, returns `this`. -/
def ComponentHost.addEffector (h : ComponentHost) (effector : Nat) : ComponentHost :=
  { h with effectors := h.effectors ++ [effector] }

/-- `addEnhancer(enhancer)`: pushes onto `this.enhancers`, returns `this`. -/
def ComponentHost.addEnhancer (h : ComponentHost) (enhancer : Nat) : ComponentHost :=
  { h with enhancers := h.enhancers ++ [enhancer] }

/-- `addMiddleware(middleware)`: pushes onto `this.middleware`, returns `this`. -/
def ComponentHost.addMiddleware (h : ComponentHost) (mw : Nat) : ComponentHost :=
  { h with middleware := h.middleware ++ [mw] }

/-- `addPart(path, Component, section = 'main', exact = true)`: pushes
`{path, Component, section, exact}` onto `this.parts` and returns `this`.
The default arguments mirror the source's defaults. -/
def ComponentHost.addPart (h : ComponentHost) (path : String) (Component : Nat)
    (sectionName : String := "main") (exact : Bool := true) : ComponentHost :=
  { h with parts := h.parts ++ [{ sectionName := sectionName, path := path,
                                  Component := Component, exact := exact }] }

/-- `createStore()`: combines the registered reducers, installs the
effectors, appends user enhancers, applies middleware only when some was
registered, and creates the store with the accumulated initial state. -/
def createStore (h : ComponentHost) : Store :=
  { reducers := h.reducers
    effectors := h.effectors
    enhancers := h.enhancers
    middlewareApplied := if h.middleware.isEmpty then none else some h.middleware
    initialState := h.initialState }

/-- The `store` getter: builds the store via `createStore` on first access,
caches it in `_store`, and returns the cached store afterwards.  Returns the
store together with the (possibly updated) host state. -/
def ComponentHost.getStore (h : ComponentHost) : Store × ComponentHost :=
  match h._store with
  | some s => (s, h)
  | none =>
    let s := createStore h
    (s, { h with _store := some s })

/-- A `<Route exact={...} path={...} component={...} key={i} />` element as
produced by `getSection`. -/
structure Route where
  exact : Bool
  path : String
  component : Nat
  key : Nat
deriving Repr, DecidableEq

/-- The container chosen by `getSection`: react-router's `Switch` when
`exclusive`, a plain `'div'` otherwise. -/
inductive Container where
  | switchC
  | divC
deriving Repr, DecidableEq

/-- The renderable structure `getSection` returns: a container wrapping an
ordered list of `Route` children. -/
structure SectionElement where
  container : Container
  children : List Route
deriving Repr, DecidableEq

/-- The `Route` element built for the part at index `i` of the filtered
list: `exact`, `path` and `component` come from the part, `key` is the
index. -/
def mkRoute (i : Nat) (p : Part) : Route :=
  { exact := p.exact, path := p.path, component := p.Component, key := i }

/-- `getSection(name, exclusive = true)`: filters `this.parts` to the parts
whose `section` equals `name`, maps each (with its index in the filtered
list) to a `Route` element, and wraps them in `Switch` (exclusive) or
`'div'` (non-exclusive). -/
def ComponentHost.getSection (h : ComponentHost) (name : String)
    (exclusive : Bool := true) : SectionElement :=
  let container := if exclusive then Container.switchC else Container.divC
  let parts := h.parts.filter (fun part => part.sectionName == name)
  { container := container
    children := parts.enum.map (fun x => mkRoute x.1 x.2) }

/-- Whether the first list of characters is an initial segment of the
second. -/
def charsPrefix : List Char → List Char → Bool
  | [], _ => true
  | _ :: _, [] => false
  | c :: cs, d :: ds => c == d && charsPrefix cs ds

/-- Modelled from the spec: the route guard supplied by the external routing
library (react-router, not part of this repository).  With `exact = true`
the pattern must match the current path exactly; with `exact = false` a
prefix match counts. -/
def routeMatches (path : String) (exact : Bool) (current : String) : Bool :=
  if exact then current == path else charsPrefix path.data current.data

/-- Modelled from the spec: the render semantics of the two containers,
supplied by the external rendering/routing libraries (not part of this
repository).  A `Switch` renders only the first child whose route guard
passes the current path; a `'div'` renders every child whose guard passes.
The result is the list of `Route` children that render. -/
def renderSection (s : SectionElement) (current : String) : List Route :=
  match s.container with
  | Container.switchC =>
    match s.children.find? (fun r => routeMatches r.path r.exact current) with
    | some r => [r]
    | none => []
  | Container.divC =>
    s.children.filter (fun r => routeMatches r.path r.exact current)

/-- Replaying a list of `addPart` calls (one call per list element, argument
order as in the source) against a host. -/
def registerAll (h : ComponentHost) (ps : List Part) : ComponentHost :=
  ps.foldl (fun h p => h.addPart p.path p.Component p.sectionName p.exact) h

/-- The spec's running example: P1 (path `/a`, exact) then P2 (path `/`,
not exact), both registered in section `main`. -/
def demoHost : ComponentHost :=
  (newHost.addPart "/a" 1 "main" true).addPart "/" 2 "main" false

/-! Helper lemmas shared by the claim theorems. -/

/-- Replaying a list of `addPart` calls appends exactly that list of parts. -/
theorem registerAll_parts (ps : List Part) (h : ComponentHost) :
    (registerAll h ps).parts = h.parts ++ ps := by
  induction ps generalizing h with
  | nil => simp [registerAll]
  | cons p ps ih =>
    simp only [registerAll, List.foldl_cons] at *
    rw [ih]
    simp [ComponentHost.addPart]

/-- Projecting the part-derived fields out of the enumerated `Route` list
recovers the same projection of the part list: the `key` indices carry no
further information. -/
theorem enumFrom_map_proj (l : List Part) (n : Nat) :
    ((l.enumFrom n).map (fun x => mkRoute x.1 x.2)).map
        (fun r => (r.path, r.exact, r.component))
      = l.map (fun p => (p.path, p.exact, p.Component)) := by
  induction l generalizing n with
  | nil => rfl
  | cons p l ih =>
    have h2 := ih (n + 1)
    simp only [List.map_map, mkRoute] at h2
    simp [List.enumFrom, mkRoute, h2]

/-- The singleton-or-empty list built from `find?` is the first element of
the filtered list. -/
theorem find?_filter_take (l : List Route) (pred : Route → Bool) :
    (match l.find? pred with
     | some r => [r]
     | none => []) = (l.filter pred).take 1 := by
  induction l with
  | nil => rfl
  | cons a l ih =>
    by_cases hp : pred a
    · simp [List.find?_cons, List.filter_cons, hp]
    · simp [List.find?_cons, List.filter_cons, hp, ih]

/-- Enumerating a list extended on the right enumerates the old list and
tags the new element with the next index. -/
theorem enumFrom_append_singleton (l : List Part) (x : Part) (n : Nat) :
    (l ++ [x]).enumFrom n = l.enumFrom n ++ [(n + l.length, x)] := by
  induction l generalizing n with
  | nil => simp [List.enumFrom]
  | cons p l ih =>
    simp [List.enumFrom, ih]
    omega

/-- The children of a resolved section, projected to their part-derived
fields, are exactly the projection of the parts whose `section` equals the
requested name, in order. -/
theorem getSection_children_proj (h : ComponentHost) (name : String) (excl : Bool) :
    (h.getSection name excl).children.map (fun r => (r.path, r.exact, r.component))
      = (h.parts.filter (fun p => p.sectionName == name)).map
          (fun p => (p.path, p.exact, p.Component)) := by
  have h2 := enumFrom_map_proj (h.parts.filter (fun p => p.sectionName == name)) 0
  simpa [ComponentHost.getSection, List.enum] using h2

/-- An element paired with an index by `enumFrom` is an element of the
underlying list. -/
theorem mem_of_mem_enumFrom {l : List Part} {n i : Nat} {p : Part}
    (hm : (i, p) ∈ l.enumFrom n) : p ∈ l := by
  induction l generalizing n with
  | nil => cases hm
  | cons a l ih =>
    rcases List.mem_cons.mp hm with hh | hh
    · cases hh; exact List.mem_cons_self _ _
    · exact List.mem_cons_of_mem _ (ih hh)

/-! The claim theorems. -/

/-- Claim C1 (exclusive first-match): with P1 (path `/a`, exact) then P2
(path `/`, not exact) registered in section `main`, `getSection('main',
true)` renders only P1 at current path `/a` and only P2 at `/b`; in
general an exclusive section renders exactly the first child (in
registration order) whose route guard passes the current path. -/
theorem c1_exclusive_first_match :
    (renderSection (demoHost.getSection "main" true) "/a"
        = [{ exact := true, path := "/a", component := 1, key := 0 }]) ∧
    (renderSection (demoHost.getSection "main" true) "/b"
        = [{ exact := false, path := "/", component := 2, key := 1 }]) ∧
    ∀ (h : ComponentHost) (name current : String),
      renderSection (h.getSection name true) current
        = ((h.getSection name true).children.filter
            (fun r => routeMatches r.path r.exact current)).take 1 := by
  refine ⟨by decide, by decide, ?_⟩
  intro h name current
  have hft := find?_filter_take (h.getSection name true).children
    (fun r => routeMatches r.path r.exact current)
  simpa [renderSection, ComponentHost.getSection] using hft

/-- Claim C2 (section filtering): every child of `getSection name
exclusive` comes from a registered part whose `section` equals `name`, and
the children are exactly the matching parts (projected to path, exact and
component) in order — parts registered under other section names never
appear. -/
theorem c2_section_filtering (h : ComponentHost) (name : String) (exclusive : Bool) :
    (∀ r ∈ (h.getSection name exclusive).children,
       ∃ p ∈ h.parts, p.sectionName = name ∧ r.path = p.path ∧ r.exact = p.exact
          ∧ r.component = p.Component) ∧
    (h.getSection name exclusive).children.map (fun r => (r.path, r.exact, r.component))
      = (h.parts.filter (fun p => p.sectionName == name)).map
          (fun p => (p.path, p.exact, p.Component)) := by
  constructor
  · intro r hr
    simp only [ComponentHost.getSection, List.mem_map] at hr
    obtain ⟨⟨i, p⟩, hmem, rfl⟩ := hr
    have hp : p ∈ h.parts.filter (fun p => p.sectionName == name) :=
      mem_of_mem_enumFrom hmem
    have hp2 := List.mem_filter.mp hp
    refine ⟨p, hp2.1, by simpa using hp2.2, rfl, rfl, rfl⟩
  · exact getSection_children_proj h name exclusive

/-- Witness for C2: the first child of `demoHost`'s `main` section does
come from a part registered under `main`. -/
theorem c2_section_filtering_witness :
    ∃ p ∈ demoHost.parts, p.sectionName = "main" ∧ "/a" = p.path ∧ true = p.exact
       ∧ (1 : Nat) = p.Component :=
  (c2_section_filtering demoHost "main" true).1
    { exact := true, path := "/a", component := 1, key := 0 } (by decide)

/-- Claim C3 (order preservation): for any sequence of `addPart` calls
starting from a fresh host, the children of `getSection name false` are the
parts registered under `name` in exactly the order the calls were made. -/
theorem c3_order_preservation (ps : List Part) (name : String) :
    ((registerAll newHost ps).getSection name false).children.map
        (fun r => (r.path, r.exact, r.component))
      = (ps.filter (fun p => p.sectionName == name)).map
          (fun p => (p.path, p.exact, p.Component)) := by
  rw [getSection_children_proj, registerAll_parts]
  simp [newHost]

/-- Claim C4 (non-exclusive all-match): with P1 (path `/a`, exact) then P2
(path `/`, not exact) in section `main`, `getSection('main', false)` at
path `/a` renders both P1 and P2; in general a non-exclusive section
renders every child whose route guard passes the current path. -/
theorem c4_nonexclusive_all_match :
    (renderSection (demoHost.getSection "main" false) "/a"
        = [{ exact := true, path := "/a", component := 1, key := 0 },
           { exact := false, path := "/", component := 2, key := 1 }]) ∧
    ∀ (h : ComponentHost) (name current : String),
      renderSection (h.getSection name false) current
        = (h.getSection name false).children.filter
            (fun r => routeMatches r.path r.exact current) := by
  refine ⟨by decide, ?_⟩
  intro h name current
  simp [renderSection, ComponentHost.getSection]

/-- Claim C5 (empty section is not an error): when no registered part's
`section` equals `name`, `getSection` still returns a successfully
constructed container with an empty child list, which renders nothing at
every current path. -/
theorem c5_empty_section (h : ComponentHost) (name : String) (exclusive : Bool)
    (hnone : ∀ p ∈ h.parts, p.sectionName ≠ name) :
    (h.getSection name exclusive).children = [] ∧
    ∀ current, renderSection (h.getSection name exclusive) current = [] := by
  have hfil : h.parts.filter (fun p => p.sectionName == name) = [] := by
    rw [List.filter_eq_nil_iff]
    intro p hp
    simp [hnone p hp]
  constructor
  · simp [ComponentHost.getSection, hfil, List.enum]
  · intro current
    cases exclusive <;>
      simp [renderSection, ComponentHost.getSection, hfil, List.enum, List.enumFrom]

/-- Witness for C5: resolving a never-registered section name on a host
with one part under a different name yields an empty child list. -/
theorem c5_empty_section_witness :
    ((newHost.addPart "/x" 5 "other" true).getSection "missing-name" true).children = [] :=
  (c5_empty_section (newHost.addPart "/x" 5 "other" true) "missing-name" true (by decide)).1

/-- Claim C6 (addPart always succeeds and is chainable): `addPart` appends
exactly one entry built from its arguments to the end of `parts` (length
grows by one, all other host fields unchanged), and chaining a second
`addPart` leaves both registrations present in order. -/
theorem c6_addPart_appends (h : ComponentHost) (path : String) (v : Nat)
    (sect : String) (ex : Bool) :
    (h.addPart path v sect ex).parts
        = h.parts ++ [{ sectionName := sect, path := path, Component := v, exact := ex }] ∧
    (h.addPart path v sect ex).parts.length = h.parts.length + 1 ∧
    (h.addPart path v sect ex).initialState = h.initialState ∧
    (h.addPart path v sect ex).reducers = h.reducers ∧
    (h.addPart path v sect ex).effectors = h.effectors ∧
    (h.addPart path v sect ex).enhancers = h.enhancers ∧
    (h.addPart path v sect ex).middleware = h.middleware ∧
    (h.addPart path v sect ex)._store = h._store ∧
    ∀ (path2 : String) (v2 : Nat) (sect2 : String) (ex2 : Bool),
      ((h.addPart path v sect ex).addPart path2 v2 sect2 ex2).parts
        = h.parts
            ++ [{ sectionName := sect, path := path, Component := v, exact := ex },
                { sectionName := sect2, path := path2, Component := v2, exact := ex2 }] := by
  refine ⟨rfl, by simp [ComponentHost.addPart], rfl, rfl, rfl, rfl, rfl, rfl, ?_⟩
  intro path2 v2 sect2 ex2
  simp [ComponentHost.addPart]

/-- Claim C7 (resolution is side-effect-free, unmemoized and idempotent):
`getSection` depends only on the `parts` field (so it reads, never writes,
the host), repeating the call gives an equal result, and a part added
between two calls with the same arguments appears (at the end) in the
second call's children. -/
theorem c7_resolution_reads_parts (h h2 : ComponentHost) (name : String) (excl : Bool) :
    (h.parts = h2.parts → h.getSection name excl = h2.getSection name excl) ∧
    h.getSection name excl = h.getSection name excl ∧
    ∀ (path : String) (v : Nat) (ex : Bool),
      ((h.addPart path v name ex).getSection name excl).children
        = (h.getSection name excl).children
            ++ [mkRoute (h.getSection name excl).children.length
                  { sectionName := name, path := path, Component := v, exact := ex }] := by
  refine ⟨?_, rfl, ?_⟩
  · intro hp
    simp [ComponentHost.getSection, hp]
  · intro path v ex
    have hone : List.filter (fun part => part.sectionName == name)
        ([{ sectionName := name, path := path, Component := v, exact := ex }] : List Part)
          = [{ sectionName := name, path := path, Component := v, exact := ex }] := by
      simp
    simp only [ComponentHost.getSection, ComponentHost.addPart, List.filter_append, hone]
    rw [List.enum, enumFrom_append_singleton]
    simp [List.enum, mkRoute]

/-- Witness for C7: two hosts with equal parts (the demo host and the demo
host after an unrelated `addReducer`) resolve `main` identically. -/
theorem c7_resolution_reads_parts_witness :
    demoHost.getSection "main" true = (demoHost.addReducer 7).getSection "main" true :=
  (c7_resolution_reads_parts demoHost (demoHost.addReducer 7) "main" true).1 (by decide)

/-- Claim C8 (monotonic, append-only parts invariant): the parts sequence
starts empty at construction; `setInitialState`, `addReducer`,
`addEffector`, `addEnhancer`, `addMiddleware` and store access leave it
untouched; only `addPart` changes it, by appending one entry at the end. -/
theorem c8_parts_append_only :
    newHost.parts = [] ∧
    ∀ (h : ComponentHost) (k : String) (n : Nat),
      (h.setInitialState k n).parts = h.parts ∧
      (h.addReducer n).parts = h.parts ∧
      (h.addEffector n).parts = h.parts ∧
      (h.addEnhancer n).parts = h.parts ∧
      (h.addMiddleware n).parts = h.parts ∧
      h.getStore.2.parts = h.parts ∧
      ∀ (path : String) (v : Nat) (sect : String) (ex : Bool),
        (h.addPart path v sect ex).parts
          = h.parts ++ [{ sectionName := sect, path := path, Component := v, exact := ex }] := by
  refine ⟨rfl, ?_⟩
  intro h k n
  refine ⟨rfl, rfl, rfl, rfl, rfl, ?_, fun _ _ _ _ => rfl⟩
  rcases h with ⟨ini, red, eff, enh, mw, parts, st⟩
  cases st <;> rfl

/-- Claim C9 (default arguments): omitting `section` and `exact` in
`addPart` registers under section `main` with `exact = true`, and omitting
`exclusive` in `getSection` behaves as `getSection name true`. -/
theorem c9_default_arguments (h : ComponentHost) (path : String) (v : Nat)
    (name : String) :
    h.addPart path v = h.addPart path v "main" true ∧
    h.getSection name = h.getSection name true :=
  ⟨rfl, rfl⟩

/-- Claim C10 (store access is memoized): the first read of `store` builds
the store via `createStore` from the registrations made so far and caches
it; a second read returns the same store without rebuilding, and
registrations made through any of the other mutators after the first
access never affect the returned store. -/
theorem c10_store_memoized (h : ComponentHost) :
    (h._store = none → h.getStore.1 = createStore h) ∧
    (∀ s, h._store = some s → h.getStore = (s, h)) ∧
    h.getStore.2.getStore = (h.getStore.1, h.getStore.2) ∧
    ∀ (n : Nat) (k : String),
      (h.getStore.2.addReducer n).getStore.1 = h.getStore.1 ∧
      (h.getStore.2.addEffector n).getStore.1 = h.getStore.1 ∧
      (h.getStore.2.addEnhancer n).getStore.1 = h.getStore.1 ∧
      (h.getStore.2.addMiddleware n).getStore.1 = h.getStore.1 ∧
      (h.getStore.2.setInitialState k n).getStore.1 = h.getStore.1 := by
  rcases h with ⟨ini, red, eff, enh, mw, parts, st⟩
  cases st with
  | none =>
    refine ⟨fun _ => rfl, ?_, rfl, fun n k => ⟨rfl, rfl, rfl, rfl, rfl⟩⟩
    intro s hs
    exact Option.noConfusion hs
  | some s =>
    refine ⟨fun hno => Option.noConfusion hno, ?_, rfl,
      fun n k => ⟨rfl, rfl, rfl, rfl, rfl⟩⟩
    intro s2 hs
    injection hs with hs2
    subst hs2
    rfl

/-- Witness for C10: a fresh host has no cached store, and its first store
read builds the store with `createStore`. -/
theorem c10_store_memoized_witness :
    newHost.getStore.1 = createStore newHost :=
  (c10_store_memoized newHost).1 rfl

end ReduxComponentHost
